import Mathlib

/-!
Shallow embedding of `pack_levels_debug.py`, a utility that parses a text
file of 2-bit binary level codes (lines like `0x10,`), pads the decoded
sequence with zeros to a multiple of four, packs each group of four 2-bit
values into one byte MSB-first, and writes the bytes as `0xHH,` lines.

Modelling conventions:
* input lines are modelled as a `List String`, one entry per physical line,
  without the trailing newline (the regex ends in `\s*$` and `str.strip`
  removes the newline, so dropping it is behaviour-preserving);
* Python `\s` / `str.strip` whitespace is modelled as the six ASCII
  whitespace characters;
* machine integers are `Nat` (all Python ints here are nonnegative);
* the filesystem is an oracle function `String → Bool` (existence) and
  `String → List String` (contents).
-/

set_option autoImplicit false

namespace PackLevels

/-- ASCII whitespace, modelling Python's `\s` character class and the
default `str.strip` set: space, tab, newline, carriage return, vertical
tab, form feed. -/
def isSpace (c : Char) : Bool :=
  c = ' ' || c = '\t' || c = '\n' || c = '\r' || c = '\x0b' || c = '\x0c'

/-- Is the character a binary digit, i.e. `'0'` or `'1'` (the `[01]` class
of `LINE_RE`). -/
def isBit (c : Char) : Bool := c = '0' || c = '1'

/-- Numeric value of a binary digit character. -/
def bitVal (c : Char) : Nat := if c = '1' then 1 else 0

/-- Python `str.strip()`: remove leading and trailing whitespace. -/
def strip (s : String) : String :=
  String.mk (((s.data.dropWhile isSpace).reverse.dropWhile isSpace).reverse)

/-- The matcher for `LINE_RE = re.compile(r"^\s*0x([01]{2}),\s*$")`
combined with `int(m.group(1), 2)` from `parse_line`: on a match it
returns the two captured binary digits read as a base-2 number (0..3),
otherwise `none`.  The regex is deterministic: greedy `\s*` then the
literal `0x` (not whitespace), two `[01]` characters, a comma immediately
after the digits, and trailing `\s*$`. -/
def matchLine (cs : List Char) : Option Nat :=
  match cs.dropWhile isSpace with
  | '0' :: 'x' :: b1 :: b2 :: ',' :: rest =>
      if isBit b1 && isBit b2 && rest.all isSpace then
        some (bitVal b1 * 2 + bitVal b2)
      else none
  | _ => none

/-- The read loop of `main` (lines 29-34): enumerate the physical lines
starting at 1, skip lines whose `strip` is empty, and for each remaining
line either decode it via `LINE_RE` (appending the decoded value to
`values` and the stripped text to `original_lines`, in lockstep) or raise
`ValueError` carrying the 1-based physical line number and the stripped
text of the first offending line. -/
def parseLines : List String → Nat → Except (Nat × String) (List Nat × List String)
  | [], _ => .ok ([], [])
  | l :: ls, i =>
      if strip l = "" then parseLines ls (i + 1)
      else
        match matchLine l.data with
        | none => .error (i, strip l)
        | some v =>
            match parseLines ls (i + 1) with
            | .error e => .error e
            | .ok (vs, ts) => .ok (v :: vs, strip l :: ts)

/-- Line 49: `byte = (b0 << 6) | (b1 << 4) | (b2 << 2) | b3`. -/
def pack4 (b0 b1 b2 b3 : Nat) : Nat :=
  (b0 <<< 6) ||| (b1 <<< 4) ||| (b2 <<< 2) ||| b3

/-- Line 37: `padded = (4 - original % 4) % 4`. -/
def padCount (l : Nat) : Nat := (4 - l % 4) % 4

/-- The packing loop of `main` (lines 47-53): walk `values` four at a
time; each group is destructured as `b0, b1, b2, b3 = values[i:i+4]`
(which raises `ValueError`, modelled by `none`, if fewer than 4 values
remain), the packed byte is appended, and the mapping entry records the
byte together with the slice `original_lines[i:i+4]` (a slice never
fails; it may be shorter than 4 if the text list runs out). -/
def packWithMapping : List Nat → List String → Option (List Nat × List (Nat × List String))
  | [], _ => some ([], [])
  | b0 :: b1 :: b2 :: b3 :: vs, ts =>
      match packWithMapping vs (ts.drop 4) with
      | none => none
      | some (p, m) =>
          some (pack4 b0 b1 b2 b3 :: p, (pack4 b0 b1 b2 b3, ts.take 4) :: m)
  | _, _ => none

/-- Uppercase hexadecimal digit character for `n < 16` (`'0'`-`'9'`,
`'A'`-`'F'`), as produced by Python's `X` format code. -/
def hexDigitChar (n : Nat) : Char :=
  if n < 10 then Char.ofNat (48 + n) else Char.ofNat (55 + n)

/-- Uppercase hexadecimal digit string of a natural number, most
significant digit first (no padding), written with explicit fuel so it
reduces in the kernel; `n + 1` units of fuel always suffice because the
argument at least halves each step. -/
def hexDigitsAux : Nat → Nat → List Char
  | 0, _ => []
  | fuel + 1, n =>
      if n < 16 then [hexDigitChar n]
      else hexDigitsAux fuel (n / 16) ++ [hexDigitChar (n % 16)]

/-- Uppercase hexadecimal digit string of a natural number, most
significant digit first (no padding). -/
def hexDigits (n : Nat) : List Char := hexDigitsAux (n + 1) n

/-- Python `f"{b:02X}"`: uppercase hex, left-padded with `'0'` to width 2. -/
def format02X (n : Nat) : String :=
  String.mk (List.replicate (2 - (hexDigits n).length) '0' ++ hexDigits n)

/-- The data computed by a successful run of `main`: the counters printed
in the summary, the packed bytes, the debug mapping (empty unless debug
mode is on), the exact strings written to the output file (one
`out.write` call each, line 58), and the ratio line's numerator and
denominator (`none` when the ratio line is not printed, line 66). -/
structure PackOutcome where
  originalCount : Nat
  paddedCount : Nat
  packedBytes : List Nat
  mapping : List (Nat × List String)
  outputChunks : List String
  ratioPair : Option (Nat × Nat)
  deriving Repr, DecidableEq

/-- How one invocation of the program terminates.
`usageError` is the `sys.exit(1)` path after printing the usage string;
`inputNotFound` is the `sys.exit(2)` path after printing to stderr;
`lineFormatError` is the uncaught `ValueError` from `parse_line`
(carrying the 1-based physical line number and the stripped offending
text) — it aborts the run before the output file is opened, so only the
`success` constructor carries output data;
`groupSizeCrash` is the uncaught `ValueError` a short tuple-unpack at
line 48 would raise (unreachable, since padding makes the length a
multiple of 4). -/
inductive RunOutcome where
  | usageError
  | inputNotFound
  | lineFormatError (lineNo : Nat) (text : String)
  | groupSizeCrash
  | success (out : PackOutcome)
  deriving Repr, DecidableEq

/-- The body of `main` (lines 20-67): check existence, parse, pad both
lists in lockstep with value `0` and placeholder text `"0x00,"`, pack,
format the output lines `f"0x{b:02X},\n"`, and assemble the summary
data.  The mapping is recorded only in debug mode (line 52); the ratio
pair only when `original` is nonzero (line 66). -/
def runMain (inputExists : Bool) (fileLines : List String) (debug : Bool) :
    RunOutcome :=
  if !inputExists then .inputNotFound
  else
    match parseLines fileLines 1 with
    | .error (i, t) => .lineFormatError i t
    | .ok (values, texts) =>
        let original := values.length
        let padded := padCount original
        let values2 := values ++ List.replicate padded 0
        let texts2 := texts ++ List.replicate padded "0x00,"
        match packWithMapping values2 texts2 with
        | none => .groupSizeCrash
        | some (packed, m) =>
            .success
              { originalCount := original
                paddedCount := padded
                packedBytes := packed
                mapping := if debug then m else []
                outputChunks := packed.map (fun b => "0x" ++ format02X b ++ ",\n")
                ratioPair := if original ≠ 0 then some (original, packed.length) else none }

/-- Process exit status of an outcome.  `sys.exit(2)` after the
missing-input message, `sys.exit(1)` after the usage string, and falling
off the end of the script exits 0; the two uncaught-`ValueError` outcomes
have no `sys.exit` in the source — the interpreter terminates such a run
with its unhandled-exception status, which is 1. -/
def exitCode : RunOutcome → Nat
  | .usageError => 1
  | .inputNotFound => 2
  | .lineFormatError _ _ => 1
  | .groupSizeCrash => 1
  | .success _ => 0

/-- Python `str.isdigit()` restricted to ASCII: nonempty and every
character a decimal digit. -/
def isDigitStr (s : String) : Bool :=
  !s.data.isEmpty && s.data.all (fun c => '0' ≤ c && c ≤ '9')

/-- Python `int(...)` on a string of decimal digits. -/
def strToNat (s : String) : Nat :=
  s.data.foldl (fun acc c => acc * 10 + (c.toNat - 48)) 0

/-- The eight characters of the flag marker checked by
`a.startswith("--debug=")`. -/
def debugEqMarker : List Char := ['-', '-', 'd', 'e', 'b', 'u', 'g', '=']

/-- Python `a.startswith("--debug=")`. -/
def hasDebugEqMarker (a : String) : Bool :=
  decide (a.data.take 8 = debugEqMarker)

/-- Python `a.split("=", 1)[1]` for a string that starts with
`"--debug="`: since the first `'='` of such a string is its eighth
character, this is everything after the marker. -/
def afterMarker (a : String) : String := String.mk (a.data.drop 8)

/-- The argument-parsing `while` loop of the `__main__` block (lines
99-116), as a recursion over the remaining tokens carrying the mutable
state `(debug_flag, debug_limit, args)`.  `--debug` sets the flag and, if
the immediately following token exists and `isdigit()`, consumes it as
the limit; `--debug=VAL` sets the flag and takes `VAL` as the limit only
when `VAL.isdigit()`; every other token is appended to the positional
list. -/
def parseFlags : List String → Bool → Option Nat → List String →
    Bool × Option Nat × List String
  | [], dbg, lim, acc => (dbg, lim, acc)
  | [a], dbg, lim, acc =>
      if a = "--debug" then (true, lim, acc)
      else if hasDebugEqMarker a then
        if isDigitStr (afterMarker a) then (true, some (strToNat (afterMarker a)), acc)
        else (true, lim, acc)
      else (dbg, lim, acc ++ [a])
  | a :: t :: rest, dbg, lim, acc =>
      if a = "--debug" then
        if isDigitStr t then parseFlags rest true (some (strToNat t)) acc
        else parseFlags (t :: rest) true lim acc
      else if hasDebugEqMarker a then
        if isDigitStr (afterMarker a) then
          parseFlags (t :: rest) true (some (strToNat (afterMarker a))) acc
        else parseFlags (t :: rest) true lim acc
      else parseFlags (t :: rest) dbg lim (acc ++ [a])
  termination_by l _ _ _ => l.length
  decreasing_by all_goals simp <;> omega

/-- The `__main__` dispatch (lines 80-122).  `argvTail` is
`sys.argv[1:]`, so `len(sys.argv) < 3` is `argvTail.length < 2`; in that
case the defaults mode runs `main("input.txt", "output.txt", debug=True)`.
Otherwise the flag loop runs; fewer than two remaining positionals print
the usage string and `sys.exit(1)`; else `main(args[0], args[1], ...)`.
The filesystem is abstracted as the oracle pair `fsExists`/`fileLines`
indexed by the input path. -/
def runProgram (argvTail : List String) (fsExists : String → Bool)
    (fileLines : String → List String) : RunOutcome :=
  if argvTail.length < 2 then
    runMain (fsExists "input.txt") (fileLines "input.txt") true
  else
    match parseFlags argvTail false none [] with
    | (dbg, _, args) =>
        match args with
        | a0 :: _ :: _ => runMain (fsExists a0) (fileLines a0) dbg
        | _ => .usageError

/-- The input path a given argument list makes the program read:
`"input.txt"` in defaults mode, the first positional in flag mode, and no
path at all when a usage error stops the run before any file access. -/
def inputPathOf (argvTail : List String) : Option String :=
  if argvTail.length < 2 then some "input.txt"
  else
    match parseFlags argvTail false none [] with
    | (_, _, a0 :: _ :: _) => some a0
    | _ => none

/-- Modelled from the spec: the unpacker the round-trip property speaks
of ("applying the inverse shifts and masks to that byte recovers
v0..v3").  The source contains no unpacker; this is the inverse
shift-and-mask of the packing formula. -/
def unpack4 (b : Nat) : Nat × Nat × Nat × Nat :=
  ((b >>> 6) &&& 3, (b >>> 4) &&& 3, (b >>> 2) &&& 3, b &&& 3)

/-- Modelled from the claim wording of C4, for comparison with
`matchLine`: optional leading whitespace, the marker `0x` with a
case-insensitive `x`, exactly two binary characters, optional whitespace,
a comma, optional trailing whitespace; the digits read as base 2. -/
def claimAccepts (s : String) : Option Nat :=
  match s.data.dropWhile isSpace with
  | c0 :: cx :: b1 :: b2 :: rest =>
      if c0 = '0' && (cx = 'x' || cx = 'X') && isBit b1 && isBit b2 then
        match rest.dropWhile isSpace with
        | ',' :: rest2 =>
            if rest2.all isSpace then some (bitVal b1 * 2 + bitVal b2) else none
        | _ => none
      else none
  | _ => none

/-- Modelled from the spec's output-format property: a character that is
an uppercase hexadecimal digit (`0`-`9` or `A`-`F`). -/
def isUpperHexDigit (c : Char) : Bool :=
  ('0' ≤ c && c ≤ '9') || ('A' ≤ c && c ≤ 'F')

/-! ### Helper lemmas -/

theorem bitVal_le (c : Char) : bitVal c ≤ 1 := by
  unfold bitVal; split <;> omega

theorem bitVal_add_lt (a b : Char) : bitVal a * 2 + bitVal b < 4 := by
  have ha := bitVal_le a
  have hb := bitVal_le b
  omega

theorem matchLine_lt_four {cs : List Char} {v : Nat}
    (h : matchLine cs = some v) : v < 4 := by
  unfold matchLine at h
  split at h
  · split at h
    · injection h with h
      subst h
      exact bitVal_add_lt _ _
    · simp at h
  · simp at h

theorem pack4_eq {v0 v1 v2 v3 : Nat}
    (h0 : v0 < 4) (h1 : v1 < 4) (h2 : v2 < 4) (h3 : v3 < 4) :
    pack4 v0 v1 v2 v3 = 64 * v0 + 16 * v1 + 4 * v2 + v3 := by
  interval_cases v0 <;> interval_cases v1 <;> interval_cases v2 <;>
    interval_cases v3 <;> rfl

theorem pack4_lt {v0 v1 v2 v3 : Nat}
    (h0 : v0 < 4) (h1 : v1 < 4) (h2 : v2 < 4) (h3 : v3 < 4) :
    pack4 v0 v1 v2 v3 < 256 := by
  rw [pack4_eq h0 h1 h2 h3]; omega

theorem packWithMapping_total :
    ∀ (vs : List Nat) (ts : List String), vs.length % 4 = 0 →
      ∃ p m, packWithMapping vs ts = some (p, m) ∧
        p.length = vs.length / 4 ∧ m.length = vs.length / 4 := by
  intro vs ts
  induction vs, ts using packWithMapping.induct with
  | case1 ts => exact fun _ => ⟨[], [], rfl, rfl, rfl⟩
  | case2 b0 b1 b2 b3 vs ts hnone ih =>
      intro hmod
      have hmod' : vs.length % 4 = 0 := by simp at hmod; omega
      obtain ⟨p, m, hp, -, -⟩ := ih hmod'
      rw [hp] at hnone; cases hnone
  | case3 b0 b1 b2 b3 vs ts p m hsome ih =>
      intro hmod
      have hmod' : vs.length % 4 = 0 := by simp at hmod; omega
      obtain ⟨p', m', hp, hlp, hlm⟩ := ih hmod'
      rw [hsome] at hp
      simp only [Option.some.injEq, Prod.mk.injEq] at hp
      obtain ⟨rfl, rfl⟩ := hp
      refine ⟨pack4 b0 b1 b2 b3 :: p, (pack4 b0 b1 b2 b3, ts.take 4) :: m, ?_, ?_, ?_⟩
      · simp [packWithMapping, hsome]
      · simp only [List.length_cons, hlp]; omega
      · simp only [List.length_cons, hlm]; omega
  | case4 t x hne h4 =>
      intro hmod
      rcases t with _ | ⟨a, _ | ⟨b, _ | ⟨c, _ | ⟨d, r⟩⟩⟩⟩
      · exact absurd rfl hne
      · simp at hmod
      · simp at hmod
      · simp at hmod
      · exact absurd rfl (h4 a b c d r)

theorem packWithMapping_bytes_lt :
    ∀ (vs : List Nat) (ts : List String) (p : List Nat)
      (m : List (Nat × List String)),
      packWithMapping vs ts = some (p, m) → (∀ v ∈ vs, v < 4) →
      ∀ b ∈ p, b < 256 := by
  intro vs ts
  induction vs, ts using packWithMapping.induct with
  | case1 ts =>
      intro p m hp _
      simp only [packWithMapping, Option.some.injEq, Prod.mk.injEq] at hp
      obtain ⟨rfl, -⟩ := hp
      simp
  | case2 b0 b1 b2 b3 vs ts hnone ih =>
      intro p m hp _
      simp only [packWithMapping, hnone] at hp
      exact Option.noConfusion hp
  | case3 b0 b1 b2 b3 vs ts p m hsome ih =>
      intro p' m' hp hlt
      simp only [packWithMapping, hsome, Option.some.injEq, Prod.mk.injEq] at hp
      obtain ⟨⟨rfl, -⟩, -⟩ := hp
      intro b hb
      rcases List.mem_cons.mp hb with rfl | hb
      · exact pack4_lt (hlt b0 (by simp)) (hlt b1 (by simp)) (hlt b2 (by simp))
          (hlt b3 (by simp))
      · exact ih p m hsome (fun v hv => hlt v (by simp [hv])) b hb
  | case4 t x hne h4 =>
      intro p m hp _
      rcases t with _ | ⟨a, _ | ⟨b, _ | ⟨c, _ | ⟨d, r⟩⟩⟩⟩
      · exact absurd rfl hne
      · simp [packWithMapping] at hp
      · simp [packWithMapping] at hp
      · simp [packWithMapping] at hp
      · exact absurd rfl (h4 a b c d r)

theorem packWithMapping_texts_len :
    ∀ (vs : List Nat) (ts : List String) (p : List Nat)
      (m : List (Nat × List String)),
      packWithMapping vs ts = some (p, m) → ts.length = vs.length →
      ∀ e ∈ m, e.2.length = 4 := by
  intro vs ts
  induction vs, ts using packWithMapping.induct with
  | case1 ts =>
      intro p m hp _
      simp only [packWithMapping, Option.some.injEq, Prod.mk.injEq] at hp
      obtain ⟨-, rfl⟩ := hp
      simp
  | case2 b0 b1 b2 b3 vs ts hnone ih =>
      intro p m hp _
      simp only [packWithMapping, hnone] at hp
      exact Option.noConfusion hp
  | case3 b0 b1 b2 b3 vs ts p m hsome ih =>
      intro p' m' hp hlen
      simp only [packWithMapping, hsome, Option.some.injEq, Prod.mk.injEq] at hp
      obtain ⟨-, rfl⟩ := hp
      intro e he
      rcases List.mem_cons.mp he with rfl | he
      · simp only [List.length_cons] at hlen
        simp [List.length_take]
        omega
      · exact ih p m hsome (by simp only [List.length_drop]; simp at hlen; omega) e he
  | case4 t x hne h4 =>
      intro p m hp _
      rcases t with _ | ⟨a, _ | ⟨b, _ | ⟨c, _ | ⟨d, r⟩⟩⟩⟩
      · exact absurd rfl hne
      · simp [packWithMapping] at hp
      · simp [packWithMapping] at hp
      · simp [packWithMapping] at hp
      · exact absurd rfl (h4 a b c d r)

theorem parseLines_blank_skip {l : String} (ls : List String) (i : Nat)
    (h : strip l = "") : parseLines (l :: ls) i = parseLines ls (i + 1) := by
  simp [parseLines, h]

theorem parseLines_all_blank :
    ∀ (ls : List String) (i : Nat), (∀ l ∈ ls, strip l = "") →
      parseLines ls i = .ok ([], []) := by
  intro ls
  induction ls with
  | nil => intro i _; rfl
  | cons a ls ih =>
      intro i hall
      rw [parseLines_blank_skip ls i (hall a (by simp))]
      exact ih _ (fun l hl => hall l (by simp [hl]))

theorem parseLines_ok_good :
    ∀ (ls : List String) (i : Nat) (vs : List Nat) (ts : List String),
      parseLines ls i = .ok (vs, ts) →
      ∀ l ∈ ls, strip l = "" ∨ (matchLine l.data).isSome := by
  intro ls
  induction ls with
  | nil => intro i vs ts _ l hl; exact absurd hl (List.not_mem_nil l)
  | cons a ls ih =>
      intro i vs ts h l hl
      simp only [parseLines] at h
      by_cases hb : strip a = ""
      · rw [if_pos hb] at h
        rcases List.mem_cons.mp hl with rfl | hl
        · exact Or.inl hb
        · exact ih _ _ _ h l hl
      · rw [if_neg hb] at h
        cases hm : matchLine a.data with
        | none => rw [hm] at h; exact Except.noConfusion h
        | some v =>
            rw [hm] at h
            rcases List.mem_cons.mp hl with rfl | hl
            · exact Or.inr (by simp [hm])
            · cases hr : parseLines ls (i + 1) with
              | error e => rw [hr] at h; exact Except.noConfusion h
              | ok pr =>
                  obtain ⟨vs', ts'⟩ := pr
                  exact ih _ _ _ hr l hl

theorem parseLines_ok_lengths :
    ∀ (ls : List String) (i : Nat) (vs : List Nat) (ts : List String),
      parseLines ls i = .ok (vs, ts) → vs.length = ts.length := by
  intro ls
  induction ls with
  | nil =>
      intro i vs ts h
      simp only [parseLines, Except.ok.injEq, Prod.mk.injEq] at h
      obtain ⟨rfl, rfl⟩ := h
      rfl
  | cons a ls ih =>
      intro i vs ts h
      simp only [parseLines] at h
      by_cases hb : strip a = ""
      · rw [if_pos hb] at h
        exact ih _ _ _ h
      · rw [if_neg hb] at h
        cases hm : matchLine a.data with
        | none => rw [hm] at h; exact Except.noConfusion h
        | some v =>
            rw [hm] at h
            cases hr : parseLines ls (i + 1) with
            | error e => rw [hr] at h; exact Except.noConfusion h
            | ok pr =>
                obtain ⟨vs', ts'⟩ := pr
                rw [hr] at h
                simp only [Except.ok.injEq, Prod.mk.injEq] at h
                obtain ⟨rfl, rfl⟩ := h
                simp [ih _ _ _ hr]

theorem parseLines_ok_values_lt :
    ∀ (ls : List String) (i : Nat) (vs : List Nat) (ts : List String),
      parseLines ls i = .ok (vs, ts) → ∀ v ∈ vs, v < 4 := by
  intro ls
  induction ls with
  | nil =>
      intro i vs ts h
      simp only [parseLines, Except.ok.injEq, Prod.mk.injEq] at h
      obtain ⟨rfl, rfl⟩ := h
      simp
  | cons a ls ih =>
      intro i vs ts h
      simp only [parseLines] at h
      by_cases hb : strip a = ""
      · rw [if_pos hb] at h
        exact ih _ _ _ h
      · rw [if_neg hb] at h
        cases hm : matchLine a.data with
        | none => rw [hm] at h; exact Except.noConfusion h
        | some v =>
            rw [hm] at h
            cases hr : parseLines ls (i + 1) with
            | error e => rw [hr] at h; exact Except.noConfusion h
            | ok pr =>
                obtain ⟨vs', ts'⟩ := pr
                rw [hr] at h
                simp only [Except.ok.injEq, Prod.mk.injEq] at h
                obtain ⟨rfl, rfl⟩ := h
                intro w hw
                rcases List.mem_cons.mp hw with rfl | hw
                · exact matchLine_lt_four hm
                · exact ih _ _ _ hr w hw

theorem parseLines_error_char :
    ∀ (ls : List String) (i n : Nat) (t : String),
      parseLines ls i = .error (n, t) →
      ∃ k l, n = i + k ∧ ls.get? k = some l ∧ t = strip l ∧ strip l ≠ "" ∧
        matchLine l.data = none ∧
        ∀ j, j < k → ∀ l', ls.get? j = some l' →
          strip l' = "" ∨ (matchLine l'.data).isSome := by
  intro ls
  induction ls with
  | nil => intro i n t h; exact Except.noConfusion h
  | cons a ls ih =>
      intro i n t h
      simp only [parseLines] at h
      by_cases hb : strip a = ""
      · rw [if_pos hb] at h
        obtain ⟨k, l, rfl, hget, ht, hne, hnone, hmin⟩ := ih _ _ _ h
        refine ⟨k + 1, l, by omega, by simpa using hget, ht, hne, hnone, ?_⟩
        intro j hj l' hget'
        cases j with
        | zero =>
            have hla : a = l' := by simpa using hget'
            exact Or.inl (hla ▸ hb)
        | succ j' => exact hmin j' (by omega) l' (by simpa using hget')
      · rw [if_neg hb] at h
        cases hm : matchLine a.data with
        | none =>
            rw [hm] at h
            simp only [Except.error.injEq, Prod.mk.injEq] at h
            obtain ⟨rfl, rfl⟩ := h
            exact ⟨0, a, by omega, rfl, rfl, hb, hm, fun j hj => absurd hj (by omega)⟩
        | some v =>
            rw [hm] at h
            cases hr : parseLines ls (i + 1) with
            | error e =>
                obtain ⟨n', t'⟩ := e
                rw [hr] at h
                simp only [Except.error.injEq, Prod.mk.injEq] at h
                obtain ⟨rfl, rfl⟩ := h
                obtain ⟨k, l, rfl, hget, ht, hne, hnone, hmin⟩ := ih _ _ _ hr
                refine ⟨k + 1, l, by omega, by simpa using hget, ht, hne, hnone, ?_⟩
                intro j hj l' hget'
                cases j with
                | zero =>
                    refine Or.inr ?_
                    have hla : a = l' := by simpa using hget'
                    simp [← hla, hm]
                | succ j' => exact hmin j' (by omega) l' (by simpa using hget')
            | ok pr =>
                obtain ⟨vs', ts'⟩ := pr
                rw [hr] at h
                exact Except.noConfusion h

theorem parseLines_error_of_bad :
    ∀ (ls : List String) (i : Nat),
      (∃ l ∈ ls, strip l ≠ "" ∧ matchLine l.data = none) →
      ∃ e, parseLines ls i = .error e := by
  intro ls i hbad
  cases h : parseLines ls i with
  | error e => exact ⟨e, rfl⟩
  | ok pr =>
      obtain ⟨l, hl, hne, hnone⟩ := hbad
      obtain ⟨vs, ts⟩ := pr
      rcases parseLines_ok_good ls i vs ts h l hl with hb | hs
      · exact absurd hb hne
      · rw [hnone] at hs; simp at hs

set_option maxRecDepth 8000 in
theorem format02X_ok : ∀ n, n < 256 → (format02X n).data.length = 2 ∧
    ((format02X n).data.all isUpperHexDigit) = true := by decide

theorem format02X_shape {n : Nat} (h : n < 256) :
    ∃ h1 h2, (format02X n).data = [h1, h2] ∧
      isUpperHexDigit h1 = true ∧ isUpperHexDigit h2 = true := by
  obtain ⟨hlen, hall⟩ := format02X_ok n h
  rcases hd : (format02X n).data with _ | ⟨c1, _ | ⟨c2, _ | ⟨c3, r⟩⟩⟩ <;>
    rw [hd] at hlen <;> simp at hlen
  rw [hd] at hall
  simp only [List.all_cons, List.all_nil, Bool.and_true, Bool.and_eq_true] at hall
  exact ⟨c1, c2, rfl, hall.1, hall.2⟩

theorem chunk_data (b : Nat) :
    ("0x" ++ format02X b ++ ",\n").data =
      '0' :: 'x' :: ((format02X b).data ++ [',', '\n']) := by
  simp [String.data_append]

theorem runMain_ok {fileLines : List String} {dbg : Bool} {values : List Nat}
    {texts : List String}
    (hp : parseLines fileLines 1 = .ok (values, texts)) :
    ∃ packed m,
      packWithMapping (values ++ List.replicate (padCount values.length) 0)
          (texts ++ List.replicate (padCount values.length) "0x00,") =
        some (packed, m) ∧
      packed.length = (values.length + padCount values.length) / 4 ∧
      runMain true fileLines dbg = .success
        { originalCount := values.length
          paddedCount := padCount values.length
          packedBytes := packed
          mapping := if dbg then m else []
          outputChunks := packed.map (fun b => "0x" ++ format02X b ++ ",\n")
          ratioPair :=
            if values.length ≠ 0 then some (values.length, packed.length)
            else none } := by
  have hmod : (values ++ List.replicate (padCount values.length) 0).length % 4 = 0 := by
    simp only [List.length_append, List.length_replicate, padCount]
    omega
  obtain ⟨p, m, hpm, hlp, hlm⟩ := packWithMapping_total _ _ hmod
  refine ⟨p, m, hpm, ?_, ?_⟩
  · rw [hlp]; simp
  · simp only [runMain, Bool.not_true, Bool.false_eq_true, if_false, hp, hpm]

/-! ### Claims -/

/-- C1: for every group of four decoded values, each in `{0,1,2,3}`, the
packer produces the byte `(v0<<6)|(v1<<4)|(v2<<2)|v3` — the first value in
the two most-significant bits — and the inverse shifts and masks recover
`v0..v3` exactly. -/
theorem claim_C1 (v0 v1 v2 v3 : Nat)
    (h0 : v0 < 4) (h1 : v1 < 4) (h2 : v2 < 4) (h3 : v3 < 4) :
    pack4 v0 v1 v2 v3 = (v0 <<< 6) ||| (v1 <<< 4) ||| (v2 <<< 2) ||| v3 ∧
    (∀ ts : List String,
      packWithMapping [v0, v1, v2, v3] ts =
        some ([pack4 v0 v1 v2 v3], [(pack4 v0 v1 v2 v3, ts.take 4)])) ∧
    unpack4 (pack4 v0 v1 v2 v3) = (v0, v1, v2, v3) := by
  refine ⟨rfl, fun ts => rfl, ?_⟩
  interval_cases v0 <;> interval_cases v1 <;> interval_cases v2 <;>
    interval_cases v3 <;> decide

theorem claim_C1_witness :
    pack4 0 1 2 3 = 27 ∧ unpack4 (pack4 0 1 2 3) = (0, 1, 2, 3) := by
  have h := claim_C1 0 1 2 3 (by decide) (by decide) (by decide) (by decide)
  exact ⟨by decide, h.2.2⟩

/-- C2: for a decoded input of length `L`, the padding appended is
`(4 - L mod 4) mod 4` zero values, the padded length is divisible by 4,
the packer succeeds (never fails) and produces `(L + padding) / 4` bytes,
and `L = 0` yields 0 padding and 0 output bytes. -/
theorem claim_C2 (vs : List Nat) (ts : List String) :
    padCount vs.length = (4 - vs.length % 4) % 4 ∧
    (vs.length + padCount vs.length) % 4 = 0 ∧
    ∃ p m,
      packWithMapping (vs ++ List.replicate (padCount vs.length) 0)
          (ts ++ List.replicate (padCount vs.length) "0x00,") = some (p, m) ∧
      p.length = (vs.length + padCount vs.length) / 4 ∧
      (vs.length = 0 → padCount vs.length = 0 ∧ p = []) := by
  have hmod : (vs ++ List.replicate (padCount vs.length) 0).length % 4 = 0 := by
    simp only [List.length_append, List.length_replicate, padCount]
    omega
  obtain ⟨p, m, hpm, hlp, hlm⟩ := packWithMapping_total _ _ hmod
  refine ⟨rfl, by simp [padCount]; omega, p, m, hpm, ?_, ?_⟩
  · rw [hlp]; simp
  · intro h0
    refine ⟨by simp [padCount, h0], ?_⟩
    have hl0 : p.length = 0 := by
      rw [hlp]
      simp [h0, padCount]
    exact List.length_eq_zero.mp hl0

theorem claim_C2_witness :
    padCount (List.length [1]) = (4 - (List.length [1]) % 4) % 4 ∧
    ((List.length [1]) + padCount (List.length [1])) % 4 = 0 ∧
    ∃ p m,
      packWithMapping ([1] ++ List.replicate (padCount (List.length [1])) 0)
          (["0x01,"] ++ List.replicate (padCount (List.length [1])) "0x00,") =
        some (p, m) ∧
      p.length = ((List.length [1]) + padCount (List.length [1])) / 4 ∧
      ((List.length [1]) = 0 → padCount (List.length [1]) = 0 ∧ p = []) :=
  claim_C2 [1] ["0x01,"]

/-- C3: when some non-blank line fails the pattern, the run aborts with a
format error identifying the 1-based line number and the (stripped) text of
the first such line — the reported position holds that line, it is
non-blank and non-matching, and every earlier line is blank or matching —
and no output is produced: the outcome is `lineFormatError`, which carries
no output data, because `main` finishes the whole parse loop before the
output file is opened. -/
theorem claim_C3 (fileLines : List String) (dbg : Bool)
    (hbad : ∃ l ∈ fileLines, strip l ≠ "" ∧ matchLine l.data = none) :
    ∃ n l, runMain true fileLines dbg = .lineFormatError n (strip l) ∧
      fileLines.get? (n - 1) = some l ∧ 1 ≤ n ∧ strip l ≠ "" ∧
      matchLine l.data = none ∧
      ∀ j, j < n - 1 → ∀ l', fileLines.get? j = some l' →
        strip l' = "" ∨ (matchLine l'.data).isSome := by
  obtain ⟨e, he⟩ := parseLines_error_of_bad fileLines 1 hbad
  obtain ⟨n, t⟩ := e
  obtain ⟨k, l, hk, hget, ht, hne, hnone, hmin⟩ :=
    parseLines_error_char _ _ _ _ he
  subst ht
  refine ⟨n, l, ?_, ?_, by omega, hne, hnone, ?_⟩
  · simp only [runMain, Bool.not_true, Bool.false_eq_true, if_false, he]
  · rw [show n - 1 = k from by omega]
    exact hget
  · intro j hj l' hg
    exact hmin j (by omega) l' hg

theorem claim_C3_witness :
    ∃ n l, runMain true ["", "0x2,"] false = .lineFormatError n (strip l) ∧
      ["", "0x2,"].get? (n - 1) = some l ∧ 1 ≤ n ∧ strip l ≠ "" ∧
      matchLine l.data = none ∧
      ∀ j, j < n - 1 → ∀ l', ["", "0x2,"].get? j = some l' →
        strip l' = "" ∨ (matchLine l'.data).isSome :=
  claim_C3 ["", "0x2,"] false ⟨"0x2,", by simp, by decide, by decide⟩

/-- C4 counterexample: the claim's pattern — a case-insensitive `0x` marker
and optional whitespace between the digits and the comma — accepts
`"0X00,"` and `"0x00 ,"`, but the code's `LINE_RE` (a lowercase-only `0x`
and a comma immediately after the digits) rejects both. -/
theorem claim_C4_counterexample :
    claimAccepts "0X00," = some 0 ∧ matchLine "0X00,".data = none ∧
    claimAccepts "0x00 ," = some 0 ∧ matchLine "0x00 ,".data = none := by
  decide

theorem dropWhile_append_of_all {p : Char → Bool} :
    ∀ (w cs : List Char), (∀ c ∈ w, p c) →
      List.dropWhile p (w ++ cs) = List.dropWhile p cs := by
  intro w
  induction w with
  | nil => simp
  | cons a w ih =>
      intro cs hall
      rw [List.cons_append, List.dropWhile_cons, if_pos (hall a (by simp))]
      exact ih cs fun c hc => hall c (by simp [hc])

/-- C4 (amended): the parser accepts exactly the lines of the form optional
leading whitespace, the exact lowercase marker `0x`, two characters each
`'0'` or `'1'`, a comma immediately after the two digits (no intervening
whitespace), then optional trailing whitespace; every accepted line decodes
its two digits as a base-2 integer in {0,1,2,3}, and every other line is
rejected. -/
theorem claim_C4_amended (s : String) (v : Nat) :
    matchLine s.data = some v ↔
      ∃ w1 b1 b2 w2, s.data = w1 ++ '0' :: 'x' :: b1 :: b2 :: ',' :: w2 ∧
        (∀ c ∈ w1, isSpace c) ∧ (∀ c ∈ w2, isSpace c) ∧
        (b1 = '0' ∨ b1 = '1') ∧ (b2 = '0' ∨ b2 = '1') ∧
        v = bitVal b1 * 2 + bitVal b2 ∧ v < 4 := by
  constructor
  · intro h
    unfold matchLine at h
    split at h
    · rename_i u b1 b2 rest heq
      split at h
      · rename_i hcond
        injection h with h
        simp only [Bool.and_eq_true] at hcond
        obtain ⟨⟨hb1, hb2⟩, hrest⟩ := hcond
        refine ⟨s.data.takeWhile isSpace, b1, b2, rest, ?_, ?_, ?_, ?_, ?_, ?_, ?_⟩
        · rw [← heq, List.takeWhile_append_dropWhile]
        · exact fun c hc => List.mem_takeWhile_imp hc
        · exact fun c hc => by
            have := List.all_eq_true.mp hrest c hc
            simpa using this
        · unfold isBit at hb1
          simpa using hb1
        · unfold isBit at hb2
          simpa using hb2
        · exact h.symm
        · rw [← h]; exact bitVal_add_lt b1 b2
      · exact Option.noConfusion h
    · exact Option.noConfusion h
  · rintro ⟨w1, b1, b2, w2, hdata, hw1, hw2, hb1, hb2, rfl, -⟩
    unfold matchLine
    rw [hdata, dropWhile_append_of_all w1 _ hw1]
    rw [List.dropWhile_cons, if_neg (by decide)]
    have hb1' : isBit b1 = true := by rcases hb1 with rfl | rfl <;> decide
    have hb2' : isBit b2 = true := by rcases hb2 with rfl | rfl <;> decide
    have hw2' : w2.all isSpace = true := List.all_eq_true.mpr fun c hc => by
      simpa using hw2 c hc
    simp [hb1', hb2', hw2']

theorem claim_C4_witness : matchLine " 0x10, ".data = some 2 :=
  (claim_C4_amended " 0x10, " 2).mpr
    ⟨[' '], '1', '0', [' '], by decide, by decide, by decide, by decide,
     by decide, by decide, by decide⟩

/-- C5 counterexample: on the input consisting of a blank line followed by
`0x2,`, the code reports the format error at line 2 — the physical position,
counting the preceding blank line — whereas the claim's numbering, which
excludes blank lines, predicts line 1 (there is exactly 0 non-blank lines
before the offending one). -/
theorem claim_C5_counterexample :
    parseLines ["", "0x2,"] 1 = .error (2, "0x2,") ∧
    (List.filter (fun l => strip l != "") [""]).length + 1 = 1 ∧
    (2 : Nat) ≠ 1 := by
  refine ⟨by rfl, by decide, by decide⟩

/-- C5 (amended): blank or whitespace-only lines are skipped — they
contribute no decoded value and no retained text — but they do count toward
the line numbers used in error reporting: the number in a format error is
the 1-based physical position of the offending line, blank lines
included. -/
theorem claim_C5_amended :
    (∀ (l : String) (ls : List String) (i : Nat), strip l = "" →
      parseLines (l :: ls) i = parseLines ls (i + 1)) ∧
    (∀ (fileLines : List String) (dbg : Bool) (n : Nat) (t : String),
      runMain true fileLines dbg = .lineFormatError n t →
      ∃ l, fileLines.get? (n - 1) = some l ∧ t = strip l ∧ strip l ≠ "" ∧
        matchLine l.data = none) := by
  refine ⟨fun l ls i h => parseLines_blank_skip ls i h, ?_⟩
  intro fileLines dbg n t h
  cases hp : parseLines fileLines 1 with
  | error e =>
      obtain ⟨n', t'⟩ := e
      simp only [runMain, Bool.not_true, Bool.false_eq_true, if_false, hp] at h
      injection h with hn htx
      subst hn
      subst htx
      obtain ⟨k, l, hk, hget, ht, hne, hnone, -⟩ :=
        parseLines_error_char _ _ _ _ hp
      exact ⟨l, by rw [show n' - 1 = k from by omega]; exact hget, ht, hne, hnone⟩
  | ok pr =>
      obtain ⟨values, texts⟩ := pr
      obtain ⟨packed, m, hpm, hlen, hrun⟩ := @runMain_ok fileLines dbg values texts hp
      rw [hrun] at h
      exact RunOutcome.noConfusion h

theorem claim_C5_witness :
    parseLines ["", "0x10,"] 1 = parseLines ["0x10,"] 2 ∧
    ∃ l, ["", "0x2,"].get? (2 - 1) = some l ∧ "0x2," = strip l ∧
      strip l ≠ "" ∧ matchLine l.data = none :=
  ⟨claim_C5_amended.1 "" ["0x10,"] 1 (by decide),
   claim_C5_amended.2 ["", "0x2,"] false 2 "0x2," (by rfl)⟩

/-- C6: in every successful run, every string written to the output file is
exactly `0x`, two uppercase hexadecimal digits, a comma and a newline —
regardless of the input's lowercase-binary convention — and in particular
no blank line is ever emitted. -/
theorem claim_C6 (fileLines : List String) (dbg : Bool) (o : PackOutcome)
    (h : runMain true fileLines dbg = .success o) :
    ∀ c ∈ o.outputChunks, ∃ h1 h2,
      c.data = ['0', 'x', h1, h2, ',', '\n'] ∧
      isUpperHexDigit h1 = true ∧ isUpperHexDigit h2 = true ∧ c ≠ "" := by
  cases hp : parseLines fileLines 1 with
  | error e =>
      obtain ⟨n, t⟩ := e
      simp only [runMain, Bool.not_true, Bool.false_eq_true, if_false, hp] at h
      exact RunOutcome.noConfusion h
  | ok pr =>
      obtain ⟨values, texts⟩ := pr
      obtain ⟨packed, m, hpm, hlen, hrun⟩ :=
        @runMain_ok fileLines dbg values texts hp
      rw [hrun] at h
      injection h with h
      subst h
      intro c hc
      simp only [List.mem_map] at hc
      obtain ⟨b, hb, rfl⟩ := hc
      have hall : ∀ v ∈ values ++ List.replicate (padCount values.length) 0, v < 4 := by
        intro v hv
        rcases List.mem_append.mp hv with hv | hv
        · exact parseLines_ok_values_lt _ _ _ _ hp v hv
        · have : v = 0 := List.eq_of_mem_replicate hv
          omega
      have hblt : b < 256 := packWithMapping_bytes_lt _ _ _ _ hpm hall b hb
      obtain ⟨h1, h2, hdata, hh1, hh2⟩ := format02X_shape hblt
      refine ⟨h1, h2, ?_, hh1, hh2, ?_⟩
      · rw [chunk_data, hdata]; rfl
      · intro hemp
        have : ("0x" ++ format02X b ++ ",\n").data = [] := by rw [hemp]
        rw [chunk_data] at this
        exact List.noConfusion this

theorem claim_C6_witness :
    ∃ h1 h2, ("0x80,\n" : String).data = ['0', 'x', h1, h2, ',', '\n'] ∧
      isUpperHexDigit h1 = true ∧ isUpperHexDigit h2 = true ∧
      ("0x80,\n" : String) ≠ "" :=
  claim_C6 ["0x10,"] false
    { originalCount := 1, paddedCount := 3, packedBytes := [128], mapping := [],
      outputChunks := ["0x80,\n"], ratioPair := some (1, 1) }
    (by decide) "0x80,\n" (by simp)

/-- C7: an input with zero non-blank lines yields a successful run with
zero decoded values, zero padding, zero output bytes and no ratio line;
and in every successful run the ratio line is present exactly when the
valid-line count is positive, and then both the numerator (original count)
and the divisor (packed count) are positive — the division is never
evaluated with a zero divisor. -/
theorem claim_C7 (fileLines : List String) (dbg : Bool) :
    ((∀ l ∈ fileLines, strip l = "") →
      runMain true fileLines dbg = .success
        { originalCount := 0, paddedCount := 0, packedBytes := [],
          mapping := [], outputChunks := [], ratioPair := none }) ∧
    (∀ o, runMain true fileLines dbg = .success o →
      ((o.ratioPair = none ↔ o.originalCount = 0) ∧
       ∀ a b, o.ratioPair = some (a, b) → 0 < a ∧ 0 < b)) := by
  constructor
  · intro hblank
    have hp : parseLines fileLines 1 = .ok ([], []) :=
      parseLines_all_blank fileLines 1 hblank
    simp [runMain, hp, padCount, packWithMapping]
  · intro o h
    cases hp : parseLines fileLines 1 with
    | error e =>
        obtain ⟨n, t⟩ := e
        simp only [runMain, Bool.not_true, Bool.false_eq_true, if_false, hp] at h
        exact RunOutcome.noConfusion h
    | ok pr =>
        obtain ⟨values, texts⟩ := pr
        obtain ⟨packed, m, hpm, hlen, hrun⟩ :=
          @runMain_ok fileLines dbg values texts hp
        rw [hrun] at h
        injection h with h
        subst h
        by_cases h0 : values.length = 0
        · simp [h0]
        · have hpos : 0 < packed.length := by
            rw [hlen]
            simp only [padCount]
            omega
          constructor
          · simp [h0]
          · intro a b hab
            rw [if_pos h0] at hab
            injection hab with hab
            obtain ⟨rfl, rfl⟩ : values.length = a ∧ packed.length = b := by
              cases hab; exact ⟨rfl, rfl⟩
            exact ⟨by omega, hpos⟩

theorem claim_C7_witness :
    runMain true ["", "   "] true = .success
      { originalCount := 0, paddedCount := 0, packedBytes := [],
        mapping := [], outputChunks := [], ratioPair := none } :=
  (claim_C7 ["", "   "] true).1 (by decide)

theorem runMain_exit (ex : Bool) (ls : List String) (dbg : Bool) :
    (exitCode (runMain ex ls dbg) = 2 ↔ ex = false) ∧
    (exitCode (runMain ex ls dbg) = 1 ↔
      ∃ n t, runMain ex ls dbg = .lineFormatError n t) ∧
    (exitCode (runMain ex ls dbg) = 0 ↔
      ∃ o, runMain ex ls dbg = .success o) := by
  cases ex
  · simp only [runMain, Bool.not_false, if_true]
    refine ⟨by simp [exitCode], by simp [exitCode], by simp [exitCode]⟩
  · cases hp : parseLines ls 1 with
    | error e =>
        obtain ⟨n, t⟩ := e
        simp only [runMain, Bool.not_true, Bool.false_eq_true, if_false, hp]
        refine ⟨by simp [exitCode], ?_, by simp [exitCode]⟩
        simp only [exitCode]
        exact ⟨fun _ => ⟨n, t, rfl⟩, fun _ => by trivial⟩
    | ok pr =>
        obtain ⟨values, texts⟩ := pr
        obtain ⟨packed, m, hpm, hlen, hrun⟩ := @runMain_ok ls dbg values texts hp
        rw [hrun]
        refine ⟨by simp [exitCode], by simp [exitCode], by simp [exitCode]⟩

/-- C8 counterexample: with argument list `["in.txt", "out.txt"]` (flag
mode, two positional arguments remaining) and an existing input file whose
single line `0x2,` is malformed, the run aborts through the uncaught
`ValueError`, which the interpreter turns into exit status 1 — yet this is
not a usage error, refuting the claim's "status 1 exactly when fewer than
2 positional arguments remain". -/
theorem claim_C8_counterexample :
    exitCode (runProgram ["in.txt", "out.txt"] (fun _ => true)
      (fun _ => ["0x2,"])) = 1 ∧
    runProgram ["in.txt", "out.txt"] (fun _ => true) (fun _ => ["0x2,"]) =
      .lineFormatError 1 "0x2," ∧
    ¬(parseFlags ["in.txt", "out.txt"] false none []).2.2.length < 2 := by
  have hpf : parseFlags ["in.txt", "out.txt"] false none [] =
      (false, none, ["in.txt", "out.txt"]) := by
    simp [parseFlags, hasDebugEqMarker, debugEqMarker]
  have hrp : runProgram ["in.txt", "out.txt"] (fun _ => true)
      (fun _ => ["0x2,"]) = .lineFormatError 1 "0x2," := by
    have hstep : runProgram ["in.txt", "out.txt"] (fun _ => true)
        (fun _ => ["0x2,"]) = runMain true ["0x2,"] false := by
      simp [runProgram, hpf]
    rw [hstep]
    decide
  refine ⟨by rw [hrp]; rfl, hrp, by rw [hpf]; simp⟩

/-- C8 (amended): the exit status is 2 exactly when the run consults an
input path that does not exist (the handled `sys.exit(2)` path, after
printing to standard error); 1 exactly when either the program is in
flag-parsing mode (two or more arguments) with fewer than 2 positional
arguments remaining after flag parsing (the usage path), or the run aborts
on a malformed input line through an uncaught `ValueError`, which the
interpreter terminates with its unhandled-exception status 1; and 0
exactly on success. -/
theorem claim_C8_amended (argvTail : List String) (fsExists : String → Bool)
    (fileLines : String → List String) :
    (exitCode (runProgram argvTail fsExists fileLines) = 2 ↔
      ∃ p, inputPathOf argvTail = some p ∧ fsExists p = false) ∧
    (exitCode (runProgram argvTail fsExists fileLines) = 1 ↔
      ((2 ≤ argvTail.length ∧
        (parseFlags argvTail false none []).2.2.length < 2) ∨
       ∃ n t, runProgram argvTail fsExists fileLines =
         .lineFormatError n t)) ∧
    (exitCode (runProgram argvTail fsExists fileLines) = 0 ↔
      ∃ o, runProgram argvTail fsExists fileLines = .success o) := by
  by_cases hlen : argvTail.length < 2
  · have hpath : inputPathOf argvTail = some "input.txt" := by
      simp [inputPathOf, hlen]
    have hrun : runProgram argvTail fsExists fileLines =
        runMain (fsExists "input.txt") (fileLines "input.txt") true := by
      simp [runProgram, hlen]
    obtain ⟨h2, h1, h0⟩ :=
      runMain_exit (fsExists "input.txt") (fileLines "input.txt") true
    rw [hrun, hpath]
    refine ⟨?_, ?_, h0⟩
    · rw [h2]
      constructor
      · intro hfs
        exact ⟨"input.txt", rfl, hfs⟩
      · rintro ⟨p, hp, hfs⟩
        injection hp with hp
        subst hp
        exact hfs
    · rw [h1]
      constructor
      · intro h
        exact Or.inr h
      · rintro (⟨hge, -⟩ | h)
        · omega
        · exact h
  · push_neg at hlen
    rcases hargs : (parseFlags argvTail false none []) with ⟨dbg, lim, args⟩
    have hnot : ¬argvTail.length < 2 := by omega
    rcases args with _ | ⟨a0, _ | ⟨a1, rest⟩⟩
    · have hpath : inputPathOf argvTail = none := by
        simp [inputPathOf, hnot, hargs]
      have hrun : runProgram argvTail fsExists fileLines = .usageError := by
        simp [runProgram, hnot, hargs]
      rw [hrun, hpath]
      refine ⟨by simp [exitCode], ?_, by simp [exitCode]⟩
      refine iff_of_true rfl (Or.inl ⟨hlen, ?_⟩)
      simp
    · have hpath : inputPathOf argvTail = none := by
        simp [inputPathOf, hnot, hargs]
      have hrun : runProgram argvTail fsExists fileLines = .usageError := by
        simp [runProgram, hnot, hargs]
      rw [hrun, hpath]
      refine ⟨by simp [exitCode], ?_, by simp [exitCode]⟩
      refine iff_of_true rfl (Or.inl ⟨hlen, ?_⟩)
      simp
    · have hpath : inputPathOf argvTail = some a0 := by
        simp [inputPathOf, hnot, hargs]
      have hrun : runProgram argvTail fsExists fileLines =
          runMain (fsExists a0) (fileLines a0) dbg := by
        simp [runProgram, hnot, hargs]
      obtain ⟨h2, h1, h0⟩ := runMain_exit (fsExists a0) (fileLines a0) dbg
      rw [hrun, hpath]
      refine ⟨?_, ?_, h0⟩
      · rw [h2]
        constructor
        · intro hfs
          exact ⟨a0, rfl, hfs⟩
        · rintro ⟨p, hp, hfs⟩
          injection hp with hp
          subst hp
          exact hfs
      · rw [h1]
        constructor
        · intro h
          exact Or.inr h
        · rintro (⟨-, hlt⟩ | h)
          · simp at hlt
            omega
          · exact h

theorem claim_C8_witness :
    exitCode (runProgram ["in.txt", "out.txt"] (fun _ => false)
      (fun _ => [])) = 2 := by
  refine ((claim_C8_amended ["in.txt", "out.txt"] (fun _ => false)
    (fun _ => [])).1).mpr ⟨"in.txt", ?_, rfl⟩
  simp [inputPathOf, parseFlags, hasDebugEqMarker, debugEqMarker]

theorem debugEq_facts (s : String) :
    hasDebugEqMarker ("--debug=" ++ s) = true ∧
    afterMarker ("--debug=" ++ s) = s ∧
    ("--debug=" ++ s) ≠ "--debug" := by
  have hdata : ("--debug=" ++ s).data = debugEqMarker ++ s.data := by
    rw [String.data_append]; rfl
  refine ⟨?_, ?_, ?_⟩
  · unfold hasDebugEqMarker
    rw [hdata, show (8 : Nat) = debugEqMarker.length from rfl, List.take_left]
    simp
  · unfold afterMarker
    rw [hdata, show (8 : Nat) = debugEqMarker.length from rfl, List.drop_left]
  · intro hcontra
    have hd := congrArg String.data hcontra
    rw [hdata] at hd
    have hl := congrArg List.length hd
    simp [debugEqMarker] at hl

theorem parseFlags_debug_sticky :
    ∀ (args : List String) (dbg : Bool) (lim : Option Nat)
      (acc : List String), dbg = true →
      (parseFlags args dbg lim acc).1 = true := by
  intro args dbg lim acc
  induction args, dbg, lim, acc using parseFlags.induct with
  | case1 dbg lim acc => intro h; simp [parseFlags, h]
  | case2 dbg lim acc => intro _; simp [parseFlags]
  | case3 a dbg lim acc ha hm hd => intro _; simp [parseFlags, ha, hm, hd]
  | case4 a dbg lim acc ha hm hd => intro _; simp [parseFlags, ha, hm, hd]
  | case5 a dbg lim acc ha hm => intro h; simp [parseFlags, ha, hm, h]
  | case6 t rest dbg lim acc ht ih =>
      intro _; simp only [parseFlags, if_pos rfl, if_pos ht]; exact ih rfl
  | case7 t rest dbg lim acc ht ih =>
      intro _; simp only [parseFlags, if_pos rfl, if_neg ht]; exact ih rfl
  | case8 a t rest dbg lim acc ha hm hd ih =>
      intro _
      simp only [parseFlags, if_neg ha, if_pos hm, if_pos hd]
      exact ih rfl
  | case9 a t rest dbg lim acc ha hm hd ih =>
      intro _
      simp only [parseFlags, if_neg ha, if_pos hm, if_neg hd]
      exact ih rfl
  | case10 a t rest dbg lim acc ha hm ih =>
      intro h
      simp only [parseFlags, if_neg ha, if_neg hm]
      exact ih h

theorem parseFlags_debug_of_mem :
    ∀ (args : List String) (dbg : Bool) (lim : Option Nat)
      (acc : List String), "--debug" ∈ args →
      (parseFlags args dbg lim acc).1 = true := by
  intro args dbg lim acc
  induction args, dbg, lim, acc using parseFlags.induct with
  | case1 dbg lim acc => intro h; exact absurd h (List.not_mem_nil _)
  | case2 dbg lim acc => intro _; simp [parseFlags]
  | case3 a dbg lim acc ha hm hd =>
      intro h
      exact absurd (List.mem_singleton.mp h).symm ha
  | case4 a dbg lim acc ha hm hd =>
      intro h
      exact absurd (List.mem_singleton.mp h).symm ha
  | case5 a dbg lim acc ha hm =>
      intro h
      exact absurd (List.mem_singleton.mp h).symm ha
  | case6 t rest dbg lim acc ht ih =>
      intro _
      simp only [parseFlags, if_pos rfl, if_pos ht]
      exact parseFlags_debug_sticky rest true (some (strToNat t)) acc rfl
  | case7 t rest dbg lim acc ht ih =>
      intro _
      simp only [parseFlags, if_pos rfl, if_neg ht]
      exact parseFlags_debug_sticky (t :: rest) true lim acc rfl
  | case8 a t rest dbg lim acc ha hm hd ih =>
      intro _
      simp only [parseFlags, if_neg ha, if_pos hm, if_pos hd]
      exact parseFlags_debug_sticky (t :: rest) true
        (some (strToNat (afterMarker a))) acc rfl
  | case9 a t rest dbg lim acc ha hm hd ih =>
      intro _
      simp only [parseFlags, if_neg ha, if_pos hm, if_neg hd]
      exact parseFlags_debug_sticky (t :: rest) true lim acc rfl
  | case10 a t rest dbg lim acc ha hm ih =>
      intro h
      simp only [parseFlags, if_neg ha, if_neg hm]
      rcases List.mem_cons.mp h with rfl | h
      · exact absurd rfl ha
      · exact ih h

/-- C9: flag parsing — `--debug` always enables debug mapping, wherever it
occurs in the argument list (also when followed by a non-digit token or as
the last token); when it is immediately followed by a token made of digits,
that token is consumed as the print limit and is not added to the
positional arguments, otherwise the limit is untouched and the following
token is processed normally; `--debug=N` with numeric `N` enables debug
with limit `N`; and `--debug=V` with non-numeric `V` is still accepted as
the flag form (never a usage error) but leaves the limit unchanged — from
the initial state, unlimited. -/
theorem claim_C9 (rest : List String) (dbg : Bool) (lim : Option Nat)
    (acc : List String) :
    (∀ args, "--debug" ∈ args → (parseFlags args dbg lim acc).1 = true) ∧
    (∀ t, isDigitStr t = true →
      parseFlags ("--debug" :: t :: rest) dbg lim acc =
        parseFlags rest true (some (strToNat t)) acc) ∧
    (∀ t, isDigitStr t = false →
      parseFlags ("--debug" :: t :: rest) dbg lim acc =
        parseFlags (t :: rest) true lim acc) ∧
    parseFlags ["--debug"] dbg lim acc = (true, lim, acc) ∧
    (∀ s, isDigitStr s = true →
      parseFlags (("--debug=" ++ s) :: rest) dbg lim acc =
        parseFlags rest true (some (strToNat s)) acc) ∧
    (∀ s, isDigitStr s = false →
      parseFlags (("--debug=" ++ s) :: rest) dbg lim acc =
        parseFlags rest true lim acc) := by
  refine ⟨?_, ?_, ?_, ?_, ?_, ?_⟩
  · intro args hmem
    exact parseFlags_debug_of_mem args dbg lim acc hmem
  · intro t ht
    simp [parseFlags, ht]
  · intro t ht
    simp [parseFlags, ht]
  · simp [parseFlags]
  · intro s hs
    obtain ⟨hmark, hafter, hne⟩ := debugEq_facts s
    cases rest with
    | nil => simp [parseFlags, hne, hmark, hafter, hs]
    | cons t2 rest2 => simp [parseFlags, hne, hmark, hafter, hs]
  · intro s hs
    obtain ⟨hmark, hafter, hne⟩ := debugEq_facts s
    cases rest with
    | nil => simp [parseFlags, hne, hmark, hafter, hs]
    | cons t2 rest2 => simp [parseFlags, hne, hmark, hafter, hs]

theorem claim_C9_witness :
    (parseFlags ["in.txt", "out.txt", "--debug"] false none []).1 = true ∧
    parseFlags ["--debug", "7"] false none [] = (true, some 7, []) ∧
    parseFlags ["--debug", "in.txt"] false none [] =
      (true, none, ["in.txt"]) ∧
    parseFlags ["--debug"] false none [] = (true, none, []) ∧
    parseFlags ["--debug=12"] false none [] = (true, some 12, []) ∧
    parseFlags ["--debug=abc"] false none [] = (true, none, []) := by
  refine ⟨?_, ?_, ?_, ?_, ?_, ?_⟩
  · exact (claim_C9 [] false none []).1 ["in.txt", "out.txt", "--debug"]
      (by simp)
  · rw [(claim_C9 [] false none []).2.1 "7" (by decide)]
    simp [parseFlags]
    decide
  · rw [(claim_C9 [] false none []).2.2.1 "in.txt" (by decide)]
    simp [parseFlags, hasDebugEqMarker, debugEqMarker]
  · exact (claim_C9 [] false none []).2.2.2.1
  · rw [show ("--debug=12" : String) = "--debug=" ++ "12" from rfl,
      (claim_C9 [] false none []).2.2.2.2.1 "12" (by decide)]
    simp [parseFlags]
    decide
  · rw [show ("--debug=abc" : String) = "--debug=" ++ "abc" from rfl,
      (claim_C9 [] false none []).2.2.2.2.2 "abc" (by decide)]
    simp [parseFlags]

/-- C10: after parsing, the decoded-values list and the retained-texts
list have equal length; padding appends to both in lockstep — value 0 and
the placeholder text `"0x00,"`, which itself matches the accepted input
pattern and decodes to 0 — preserving equal length; consequently every
debug-mapping entry of a successful debug run records exactly 4 source
texts, never fewer. -/
theorem claim_C10 (fileLines : List String) (values : List Nat)
    (texts : List String)
    (hp : parseLines fileLines 1 = .ok (values, texts)) :
    values.length = texts.length ∧
    (values ++ List.replicate (padCount values.length) 0).length =
      (texts ++ List.replicate (padCount values.length) "0x00,").length ∧
    matchLine "0x00,".data = some 0 ∧
    ∀ o, runMain true fileLines true = .success o →
      ∀ e ∈ o.mapping, e.2.length = 4 := by
  have hlen := parseLines_ok_lengths _ _ _ _ hp
  refine ⟨hlen, by simp [hlen], by decide, ?_⟩
  intro o h
  obtain ⟨packed, m, hpm, hl, hrun⟩ := @runMain_ok fileLines true values texts hp
  rw [hrun] at h
  injection h with h
  subst h
  intro e he
  simp only [if_true] at he
  refine packWithMapping_texts_len _ _ _ _ hpm ?_ e ?_
  · simp [hlen]
  · simpa using he

theorem claim_C10_witness :
    List.length [1] = List.length ["0x01,"] ∧
    matchLine "0x00,".data = some 0 ∧
    ((64, ["0x01,", "0x00,", "0x00,", "0x00,"]) :
        Nat × List String).2.length = 4 := by
  have h := claim_C10 ["0x01,"] [1] ["0x01,"] (by rfl)
  refine ⟨h.1, h.2.2.1, ?_⟩
  refine h.2.2.2
    { originalCount := 1, paddedCount := 3, packedBytes := [64],
      mapping := [(64, ["0x01,", "0x00,", "0x00,", "0x00,"])],
      outputChunks := ["0x40,\n"], ratioPair := some (1, 1) }
    (by decide) (64, ["0x01,", "0x00,", "0x00,", "0x00,"]) (by simp)

end PackLevels
